import Mathlib

/-!
# Verification of the cesm_dev_statboard parsing / resolution pipeline

A shallow embedding, in Lean 4, of the core components of the
`cesm_dev_statboard` repository:

* `src/parsers/case_parser.py`        — CESM case-name parsing,
* `src/parsers/adf_parser.py`         — ADF statistics-table extraction,
* `src/parsers/issue_parser.py`       — GitHub-issue text extraction,
* `src/collectors/filesystem_collector.py` — local diagnostics resolution,
* `src/collectors/web_collector.py`   — remote (web) diagnostics resolution.

Python strings are modelled as Lean `String` (scanning works on `List Char`);
the inputs of interest are ASCII, so ASCII-only models of `str.strip`,
`str.lower` and the `re` character classes coincide with Python's behaviour.
Filesystem and HTTP effects are modelled as explicit oracles passed to the
embedded functions.  Machine floats produced by Python's `float(...)` on the
decimal literals appearing in these tables are modelled as exact rationals.
-/

namespace Statboard

attribute [local semireducible] Rat.add Rat.mul Rat.inv Rat.sub

/-! ## Python string primitives -/

/-- ASCII whitespace, the characters `str.strip()` removes (Python also strips
`\x0b` and `\x0c`); this is also the ASCII part of the `re` class `\s`. -/
def isPySpace (c : Char) : Bool :=
  c = ' ' || c = '\t' || c = '\n' || c = '\r' || c = '\x0b' || c = '\x0c'

/-- `str.strip()` on a character list. -/
def pyStripList (cs : List Char) : List Char :=
  ((cs.dropWhile isPySpace).reverse.dropWhile isPySpace).reverse

/-- `str.strip()`. -/
def pyStrip (s : String) : String :=
  String.mk (pyStripList s.toList)

/-- `str.lower()` (ASCII). -/
def pyLower (s : String) : String :=
  String.mk (s.toList.map Char.toLower)

/-- Drop trailing characters satisfying `p` (models `re.sub(r'[...]+$', '', s)`). -/
def dropTrailing (p : Char → Bool) (cs : List Char) : List Char :=
  (cs.reverse.dropWhile p).reverse

/-- Python's substring test `sub in l` on character lists. -/
def hasSub (l sub : List Char) : Bool :=
  match l with
  | [] => sub.isEmpty
  | _ :: t => sub.isPrefixOf l || hasSub t sub

/-- Python's substring test `sub in s`. -/
def strContains (s sub : String) : Bool :=
  hasSub s.toList sub.toList

/-- Python's `s.startswith(pre)`. -/
def strStarts (s pre : String) : Bool :=
  pre.toList.isPrefixOf s.toList

/-- Python's `s.endswith(suf)`. -/
def strEnds (s suf : String) : Bool :=
  suf.toList.isSuffixOf s.toList

/-! ## Case-name parser (`src/parsers/case_parser.py`)

The primary grammar is the anchored regex

```
^(?P<experiment_id>[a-zA-Z0-9._-]+)\.
 (?P<compset>[A-Z][A-Z0-9_]+)\.
 (?P<resolution>[a-z0-9_]+)\.
 (?P<case_number>\d+)$
```

`compset`, `resolution` and `case_number` contain no `.`, each is delimited
by literal dots (or the end of the string), and `+` repetitions over
dot-free classes admit no internal backtracking, so a match decomposes the
string at explicit dot positions.  The only backtracking choice is the
(greedy) extent of `experiment_id`; the matcher below mirrors this by trying
split positions for the dot that terminates `experiment_id` from the longest
candidate downwards. -/

/-- The class `[a-zA-Z0-9._-]` of `experiment_id`. -/
def isExpChar (c : Char) : Bool :=
  c.isAlpha || c.isDigit || c = '.' || c = '_' || c = '-'

/-- The class `[A-Z0-9_]` (continuation characters of `compset`). -/
def isCompChar (c : Char) : Bool :=
  c.isUpper || c.isDigit || c = '_'

/-- The class `[a-z0-9_]` of `resolution`. -/
def isResChar (c : Char) : Bool :=
  c.isLower || c.isDigit || c = '_'

/-- The `re` class `\w` = `[a-zA-Z0-9_]` (ASCII). -/
def isWordChar (c : Char) : Bool :=
  c.isAlpha || c.isDigit || c = '_'

/-- Match `(?P<compset>[A-Z][A-Z0-9_]+)\.(?P<resolution>[a-z0-9_]+)\.(?P<case_number>\d+)$`
against an entire character list, returning the three groups. -/
def tailMatch (cs : List Char) : Option (List Char × List Char × List Char) :=
  match cs with
  | [] => none
  | ch :: rest =>
    if ch.isUpper then
      let comp := rest.takeWhile isCompChar
      let rest1 := rest.dropWhile isCompChar
      if comp.isEmpty then none
      else
        match rest1 with
        | '.' :: rest2 =>
          let res := rest2.takeWhile isResChar
          let rest3 := rest2.dropWhile isResChar
          if res.isEmpty then none
          else
            match rest3 with
            | '.' :: rest4 =>
              let num := rest4.takeWhile Char.isDigit
              let rest5 := rest4.dropWhile Char.isDigit
              if num.isEmpty then none
              else if rest5.isEmpty then some (ch :: comp, res, num)
              else none
            | _ => none
        | _ => none
    else none

/-- Groups of a primary-grammar match:
(experiment_id, compset, resolution, case_number). -/
abbrev CaseGroups := List Char × List Char × List Char × List Char

/-- Try the primary grammar with `experiment_id` of length exactly `d`
(so position `d` holds the dot terminating it). -/
def primarySplitAt (cs : List Char) (d : Nat) : Option CaseGroups :=
  if 1 ≤ d ∧ (cs.take d).all isExpChar = true ∧ cs.get? d = some '.' then
    match tailMatch (cs.drop (d + 1)) with
    | some (c, r, n) => some (cs.take d, c, r, n)
    | none => none
  else none

/-- Greedy search: try `experiment_id` split positions from longest down. -/
def primaryAux (cs : List Char) : Nat → Option CaseGroups
  | 0 => none
  | d + 1 =>
    match primarySplitAt cs (d + 1) with
    | some g => some g
    | none => primaryAux cs d

/-- Full-string match of the primary case-name regex. -/
def primaryMatch (cs : List Char) : Option CaseGroups :=
  primaryAux cs cs.length

/-- Fallback search `re.search(r'\b([A-Z][A-Z0-9_]+)\b', s)`: leftmost
position with a word boundary before an uppercase letter, whose maximal
`[A-Z0-9_]` run has length ≥ 2 and is followed by a word boundary (the
character after the maximal run is never in `[A-Z0-9_]`, so the boundary
fails only on a following lowercase letter; shorter runs always abut a word
character, so only the maximal run can match). -/
def searchCompsetAux : Option Char → List Char → Option (List Char)
  | _, [] => none
  | prev, c :: t =>
    let run := t.takeWhile isCompChar
    let rest := t.dropWhile isCompChar
    if (match prev with
        | none => true
        | some pc => !isWordChar pc)
        && c.isUpper && !run.isEmpty
        && (match rest.head? with
            | none => true
            | some nc => !nc.isLower) then
      some (c :: run)
    else
      searchCompsetAux (some c) t

/-- Fallback compset search on a whole string. -/
def searchCompset (cs : List Char) : Option (List Char) :=
  searchCompsetAux none cs

/-- Fallback search `re.search(r'\b([a-z0-9]+_[a-z0-9_]+)\b', s)`: a word
boundary, a maximal `[a-z0-9]` run, a literal `_`, then a maximal
`[a-z0-9_]` run, then a word boundary (which can fail only on a following
uppercase letter). -/
def searchResolutionAux : Option Char → List Char → Option (List Char)
  | _, [] => none
  | prev, c :: t =>
    let run1 := t.takeWhile (fun x => x.isLower || x.isDigit)
    let rest1 := t.dropWhile (fun x => x.isLower || x.isDigit)
    if (match prev with
        | none => true
        | some pc => !isWordChar pc)
        && (c.isLower || c.isDigit) then
      match rest1 with
      | '_' :: rest2 =>
        let run2 := rest2.takeWhile isResChar
        let rest3 := rest2.dropWhile isResChar
        if !run2.isEmpty
            && (match rest3.head? with
                | none => true
                | some nc => !nc.isUpper) then
          some (c :: run1 ++ '_' :: run2)
        else
          searchResolutionAux (some c) t
      | _ => searchResolutionAux (some c) t
    else
      searchResolutionAux (some c) t

/-- Fallback resolution search on a whole string. -/
def searchResolution (cs : List Char) : Option (List Char) :=
  searchResolutionAux none cs

/-- Fallback search `re.search(r'\.(\d+)$', s)`: a dot immediately before
the maximal trailing digit run (the input is already stripped, so `$` is
end-of-string). -/
def searchNumber (cs : List Char) : Option (List Char) :=
  let rev := cs.reverse
  let ds := rev.takeWhile Char.isDigit
  if ds.isEmpty then none
  else
    match (rev.dropWhile Char.isDigit).head? with
    | some '.' => some ds.reverse
    | _ => none

/-- `CaseMetadata` (dataclass in `case_parser.py`). -/
structure CaseMetadata where
  case_name : String
  experiment_id : Option String := none
  compset : Option String := none
  resolution : Option String := none
  case_number : Option String := none
deriving Repr, DecidableEq

/-- `CaseParser.parse_case_name`. -/
def parseCaseName (s : String) : CaseMetadata :=
  if s = "" then
    { case_name := "" }
  else
    let t := pyStrip s
    let cs := t.toList
    match primaryMatch cs with
    | some (e, c, r, n) =>
      { case_name := t
        experiment_id := some (String.mk e)
        compset := some (String.mk c)
        resolution := some (String.mk r)
        case_number := some (String.mk n) }
    | none =>
      { case_name := t
        compset := (searchCompset cs).map String.mk
        resolution := (searchResolution cs).map String.mk
        case_number := (searchNumber cs).map String.mk }

/-- Segment shape `[A-Z][A-Z0-9_]+` (a full compset-shaped dot-segment). -/
def compsetShaped (s : String) : Bool :=
  match s.toList with
  | c :: t => c.isUpper && !t.isEmpty && t.all isCompChar
  | [] => false

/-- Segment shape `[a-z0-9_]+` (a full resolution-shaped dot-segment). -/
def resolutionShaped (s : String) : Bool :=
  !s.toList.isEmpty && s.toList.all isResChar

/-- Segment shape `\d+` (a full case-number-shaped dot-segment). -/
def numberShaped (s : String) : Bool :=
  !s.toList.isEmpty && s.toList.all Char.isDigit

/-! ### Lemmas about the primary-grammar matcher -/

theorem isCompChar_ne_dot {c : Char} (h : isCompChar c = true) : c ≠ '.' := by
  rintro rfl
  simp [isCompChar] at h

theorem isResChar_ne_dot {c : Char} (h : isResChar c = true) : c ≠ '.' := by
  rintro rfl
  simp [isResChar] at h

theorem isDigit_ne_dot {c : Char} (h : c.isDigit = true) : c ≠ '.' := by
  rintro rfl
  simp [Char.isDigit] at h

theorem isUpper_ne_dot {c : Char} (h : c.isUpper = true) : c ≠ '.' := by
  rintro rfl
  simp [Char.isUpper] at h

/-- Reconstruct a list from its `takeWhile`/`dropWhile` split when the
remainder starts with a dot. -/
theorem seg_reconstruct {p : Char → Bool} {l rest : List Char}
    (hdrop : l.dropWhile p = '.' :: rest) :
    l = l.takeWhile p ++ '.' :: rest := by
  conv_lhs => rw [← List.takeWhile_append_dropWhile (p := p) (l := l)]
  rw [hdrop]

/-- `tailMatch` is sound: a success decomposes its input into the three
dot-separated groups, each satisfying its character class. -/
theorem tailMatch_sound {l : List Char} {c r n : List Char}
    (h : tailMatch l = some (c, r, n)) :
    l = c ++ '.' :: r ++ '.' :: n ∧
    (∃ ch ct, c = ch :: ct ∧ ch.isUpper = true ∧ ct ≠ [] ∧ ct.all isCompChar = true) ∧
    r ≠ [] ∧ r.all isResChar = true ∧ n ≠ [] ∧ n.all Char.isDigit = true := by
  match l with
  | [] => simp [tailMatch] at h
  | ch :: rest =>
    simp only [tailMatch] at h
    split at h
    case isFalse => exact absurd h (by simp)
    case isTrue hup =>
      split at h
      case isTrue => exact absurd h (by simp)
      case isFalse hcomp =>
        split at h
        case h_2 => exact absurd h (by simp)
        case h_1 rest1 rest2 heq1 =>
          split at h
          case isTrue => exact absurd h (by simp)
          case isFalse hres =>
            split at h
            case h_2 => exact absurd h (by simp)
            case h_1 rest3 rest4 heq2 =>
              split at h
              case isTrue => exact absurd h (by simp)
              case isFalse hnum =>
                split at h
                case isFalse => exact absurd h (by simp)
                case isTrue hend =>
                  injection h with h'
                  simp only [Prod.mk.injEq] at h'
                  obtain ⟨hc, hr, hn⟩ := h'
                  subst hc hr hn
                  refine ⟨?_, ⟨ch, _, rfl, hup, by simpa using hcomp, List.all_takeWhile⟩,
                    by simpa using hres, List.all_takeWhile,
                    by simpa using hnum, List.all_takeWhile⟩
                  have hA : rest = rest.takeWhile isCompChar ++ '.' :: rest2 :=
                    seg_reconstruct heq1
                  have hB : rest2 = rest2.takeWhile isResChar ++ '.' :: rest4 :=
                    seg_reconstruct heq2
                  have hend' : rest4.dropWhile Char.isDigit = [] := by
                    simpa using hend
                  have hC : rest4 = rest4.takeWhile Char.isDigit := by
                    conv_lhs => rw [← List.takeWhile_append_dropWhile
                      (p := Char.isDigit) (l := rest4)]
                    rw [hend']
                    simp
                  conv_lhs => rw [hA]
                  conv_lhs => rw [hB]
                  conv_lhs => rw [hC]
                  simp

/-- Splitting a list at its first `.` is unique: if both left parts are
dot-free, equal concatenations force equal parts. -/
theorem splitDot_unique :
    ∀ (a1 : List Char) {a2 t1 t2 : List Char},
      (∀ x ∈ a1, x ≠ '.') → (∀ x ∈ a2, x ≠ '.') →
      a1 ++ '.' :: t1 = a2 ++ '.' :: t2 → a1 = a2 ∧ t1 = t2 := by
  intro a1
  induction a1 with
  | nil =>
    intro a2 t1 t2 _ h2 heq
    match a2, heq with
    | [], heq => simp_all
    | b :: bs, heq =>
      simp only [List.nil_append, List.cons_append, List.cons.injEq] at heq
      exact absurd heq.1.symm (h2 b (by simp))
  | cons a as ih =>
    intro a2 t1 t2 h1 h2 heq
    match a2, heq with
    | [], heq =>
      simp only [List.nil_append, List.cons_append, List.cons.injEq] at heq
      exact absurd heq.1 (h1 a (by simp))
    | b :: bs, heq =>
      simp only [List.cons_append, List.cons.injEq] at heq
      obtain ⟨hab, htail⟩ := heq
      obtain ⟨he, ht⟩ := ih (fun x hx => h1 x (by simp [hx]))
        (fun x hx => h2 x (by simp [hx])) htail
      exact ⟨by rw [hab, he], ht⟩

/-- The four-segment decomposition of a case name is unique: `compset`,
`resolution` and `case_number` are dot-free, so they are forced to be the
last three dot-delimited segments, and `experiment_id` is everything before
them. -/
theorem caseDecomp_unique {e c r n e' c' r' n' : List Char}
    (hc : ∀ x ∈ c, x ≠ '.') (hr : ∀ x ∈ r, x ≠ '.') (hn : ∀ x ∈ n, x ≠ '.')
    (hc' : ∀ x ∈ c', x ≠ '.') (hr' : ∀ x ∈ r', x ≠ '.') (hn' : ∀ x ∈ n', x ≠ '.')
    (heq : e ++ '.' :: (c ++ '.' :: (r ++ '.' :: n)) =
           e' ++ '.' :: (c' ++ '.' :: (r' ++ '.' :: n'))) :
    e = e' ∧ c = c' ∧ r = r' ∧ n = n' := by
  have hrev : n.reverse ++ '.' :: (r.reverse ++ '.' :: (c.reverse ++ '.' :: e.reverse)) =
      n'.reverse ++ '.' :: (r'.reverse ++ '.' :: (c'.reverse ++ '.' :: e'.reverse)) := by
    have := congrArg List.reverse heq
    simpa [List.reverse_append, List.append_assoc] using this
  have hn2 : ∀ x ∈ n.reverse, x ≠ '.' := fun x hx => hn x (by simpa using hx)
  have hn2' : ∀ x ∈ n'.reverse, x ≠ '.' := fun x hx => hn' x (by simpa using hx)
  obtain ⟨hneq, hrest1⟩ := splitDot_unique n.reverse hn2 hn2' hrev
  have hr2 : ∀ x ∈ r.reverse, x ≠ '.' := fun x hx => hr x (by simpa using hx)
  have hr2' : ∀ x ∈ r'.reverse, x ≠ '.' := fun x hx => hr' x (by simpa using hx)
  obtain ⟨hreq, hrest2⟩ := splitDot_unique r.reverse hr2 hr2' hrest1
  have hc2 : ∀ x ∈ c.reverse, x ≠ '.' := fun x hx => hc x (by simpa using hx)
  have hc2' : ∀ x ∈ c'.reverse, x ≠ '.' := fun x hx => hc' x (by simpa using hx)
  obtain ⟨hceq, hrest3⟩ := splitDot_unique c.reverse hc2 hc2' hrest2
  refine ⟨?_, ?_, ?_, ?_⟩
  · have := congrArg List.reverse hrest3; simpa using this
  · have := congrArg List.reverse hceq; simpa using this
  · have := congrArg List.reverse hreq; simpa using this
  · have := congrArg List.reverse hneq; simpa using this

/-- `primarySplitAt` is sound: a success at split position `d` decomposes
the whole input with `experiment_id` of length `d`. -/
theorem primarySplitAt_sound {cs : List Char} {d : Nat} {e c r n : List Char}
    (h : primarySplitAt cs d = some (e, c, r, n)) :
    e = cs.take d ∧ e.length = d ∧ 1 ≤ d ∧ e.all isExpChar = true ∧
    cs = e ++ '.' :: (c ++ '.' :: (r ++ '.' :: n)) ∧
    tailMatch (cs.drop (d + 1)) = some (c, r, n) := by
  simp only [primarySplitAt] at h
  split at h
  case isFalse => exact absurd h (by simp)
  case isTrue hcond =>
    obtain ⟨hd1, hexp, hdot⟩ := hcond
    split at h
    case h_2 => exact absurd h (by simp)
    case h_1 c0 r0 n0 htm =>
      injection h with h'
      simp only [Prod.mk.injEq] at h'
      obtain ⟨he, hc, hr, hn⟩ := h'
      subst hc hr hn
      subst he
      have hdlt : d < cs.length := by
        rcases List.getElem?_eq_some_iff.mp (by simpa using hdot) with ⟨hlt, _⟩
        exact hlt
      have hlen : (cs.take d).length = d := by
        simp [List.length_take]
        omega
      have hdrop : cs.drop d = '.' :: cs.drop (d + 1) := by
        have hd := List.drop_eq_getElem_cons hdlt
        rcases List.getElem?_eq_some_iff.mp (by simpa using hdot) with ⟨hlt, hget⟩
        rw [hd, hget]
      have hsplit : cs = cs.take d ++ '.' :: cs.drop (d + 1) := by
        conv_lhs => rw [← List.take_append_drop d cs]
        rw [hdrop]
      obtain ⟨hl, _, _, _, _, _⟩ := tailMatch_sound htm
      refine ⟨rfl, hlen, hd1, hexp, ?_, htm⟩
      conv_lhs => rw [hsplit]
      rw [hl]
      simp

/-- `primaryAux` is sound: a success comes from some admissible split. -/
theorem primaryAux_sound {cs : List Char} {g : CaseGroups} :
    ∀ k, primaryAux cs k = some g → ∃ d, 1 ≤ d ∧ d ≤ k ∧ primarySplitAt cs d = some g := by
  intro k
  induction k with
  | zero => intro h; simp [primaryAux] at h
  | succ d ih =>
    intro h
    simp only [primaryAux] at h
    split at h
    case h_1 g' hs =>
      injection h with h'
      exact ⟨d + 1, by omega, le_refl _, by rw [hs, h']⟩
    case h_2 =>
      obtain ⟨d', h1, h2, h3⟩ := ih h
      exact ⟨d', h1, by omega, h3⟩

/-! ### Claim theorems about the case-name parser -/

/-- C4: for every input string (including the empty string, whitespace-only
strings, and strings matching no grammar), `parse_case_name` is total (the
embedding is a total function; the Python code raises on no path) and
returns a `CaseMetadata` whose `case_name` equals the input with leading and
trailing whitespace trimmed; all other fields are optional. -/
theorem parse_case_name_total_and_trims (s : String) :
    (parseCaseName s).case_name = pyStrip s := by
  unfold parseCaseName
  split
  · rename_i h
    subst h
    rfl
  · dsimp only
    split <;> rfl

/-- C5 (evaluation at the failing input): the flagship case name
`b.e30_alpha08b.B1850C_LTso.ne30_t232_wgx3.308` does NOT match the primary
grammar — its compset segment `B1850C_LTso` contains lowercase letters,
which the compset group `[A-Z][A-Z0-9_]+` rejects — so the parser falls
back and returns `compset = none` and `resolution = "e30_alpha08b"` instead
of the four advertised fields (the code's own comment presents exactly this
name as the format the pattern is meant to parse). -/
theorem parse_flagship_case_falls_back :
    parseCaseName "b.e30_alpha08b.B1850C_LTso.ne30_t232_wgx3.308" =
      { case_name := "b.e30_alpha08b.B1850C_LTso.ne30_t232_wgx3.308",
        experiment_id := none,
        compset := none,
        resolution := some "e30_alpha08b",
        case_number := some "308" } ∧
    compsetShaped "B1850C_LTso" = false := by
  constructor
  · rfl
  · rfl

/-- C6 (counterexample): in `x.B1.a2.C3.n30.308` two dot-delimited positions
admit a compset-shaped segment with a resolution-shaped segment after it and
an all-digit final segment (`B1` at index 1 and `C3` at index 3), yet the
primary-grammar parse sets `experiment_id = "x.B1.a2"` — everything before
the LATEST admissible compset segment — not `"x"`, everything before the
earliest. -/
theorem case_parser_not_earliest_compset :
    (parseCaseName "x.B1.a2.C3.n30.308").experiment_id = some "x.B1.a2" ∧
    "x.B1.a2.C3.n30.308".toList.splitOn '.' =
      ["x".toList, "B1".toList, "a2".toList, "C3".toList, "n30".toList, "308".toList] ∧
    compsetShaped "B1" = true ∧ resolutionShaped "a2" = true ∧
    compsetShaped "C3" = true ∧ resolutionShaped "n30" = true ∧
    numberShaped "308" = true ∧
    (parseCaseName "x.B1.a2.C3.n30.308").experiment_id ≠ some "x" := by
  refine ⟨rfl, rfl, rfl, rfl, rfl, rfl, rfl, ?_⟩
  decide

/-- C6 (amended): when the primary grammar matches, the string decomposes as
`experiment_id . compset . resolution . case_number` with the last three
groups dot-free, and this decomposition is UNIQUE — compset is forced to be
the antepenultimate dot-segment, so `experiment_id` is everything before
that one admissible (latest) compset position; there is no "earliest
compset" choice, greedy or otherwise. -/
theorem primary_match_unique_decomposition {cs e c r n : List Char}
    (h : primaryMatch cs = some (e, c, r, n)) :
    cs = e ++ '.' :: (c ++ '.' :: (r ++ '.' :: n)) ∧
    e ≠ [] ∧ e.all isExpChar = true ∧
    (∀ x ∈ c, x ≠ '.') ∧ (∀ x ∈ r, x ≠ '.') ∧ (∀ x ∈ n, x ≠ '.') ∧
    (∀ e' c' r' n', (∀ x ∈ c', x ≠ '.') → (∀ x ∈ r', x ≠ '.') →
      (∀ x ∈ n', x ≠ '.') →
      cs = e' ++ '.' :: (c' ++ '.' :: (r' ++ '.' :: n')) →
      e' = e ∧ c' = c ∧ r' = r ∧ n' = n) := by
  obtain ⟨d, hd1, hdk, hsplit⟩ := primaryAux_sound cs.length h
  obtain ⟨he, helen, -, hexp, hdecomp, htm⟩ := primarySplitAt_sound hsplit
  obtain ⟨-, ⟨ch, ct, hcc, hchup, -, hctall⟩, -, hrall, -, hnall⟩ := tailMatch_sound htm
  have hcdot : ∀ x ∈ c, x ≠ '.' := by
    intro x hx
    rw [hcc] at hx
    rcases List.mem_cons.mp hx with hx | hx
    · subst hx; exact isUpper_ne_dot hchup
    · exact isCompChar_ne_dot (List.all_eq_true.mp hctall x hx)
  have hrdot : ∀ x ∈ r, x ≠ '.' := fun x hx =>
    isResChar_ne_dot (List.all_eq_true.mp hrall x hx)
  have hndot : ∀ x ∈ n, x ≠ '.' := fun x hx =>
    isDigit_ne_dot (List.all_eq_true.mp hnall x hx)
  have hene : e ≠ [] := by
    intro habs
    rw [habs] at helen
    simp at helen
    omega
  refine ⟨hdecomp, hene, hexp, hcdot, hrdot, hndot, ?_⟩
  intro e' c' r' n' hc' hr' hn' hdecomp'
  have := caseDecomp_unique hc' hr' hn' hcdot hrdot hndot (hdecomp'.symm.trans hdecomp)
  exact this

/-- Witness for `primary_match_unique_decomposition` at a concrete matching
case name. -/
theorem primary_match_unique_decomposition_witness :
    "b.e30.B1850C.ne30_t232_wgx3.308".toList =
      "b.e30".toList ++ '.' :: ("B1850C".toList ++ '.' ::
        ("ne30_t232_wgx3".toList ++ '.' :: "308".toList)) :=
  (primary_match_unique_decomposition (by decide :
    primaryMatch "b.e30.B1850C.ne30_t232_wgx3.308".toList =
      some ("b.e30".toList, "B1850C".toList, "ne30_t232_wgx3".toList,
        "308".toList))).1

/-! ## ADF statistics-table parser (`src/parsers/adf_parser.py`)

A pandas DataFrame parsed from a CSV is modelled as a column-name list plus
rows of cells; a cell is `none` when pandas read it as NaN (an empty CSV
field).  Cell payloads are kept as strings and numeric conversion happens at
the embedded `float(...)` call, which is equivalent for these tables to
pandas' own dtype inference followed by the trivial `float` on a float.
`float(...)` on finite decimal/exponent literals is modelled exactly over
`ℚ`; non-finite literals (`inf`/`nan`) do not occur in these tables and are
outside the model. -/

/-- `Path(p).name`: the last nonempty `/`-segment of a path. -/
def pathName (p : String) : String :=
  match ((p.toList.splitOn '/').filter (fun seg => !seg.isEmpty)).getLast? with
  | some seg => String.mk seg
  | none => ""

/-- Digit run to a natural number. -/
def digitsToNat (ds : List Char) : Nat :=
  ds.foldl (fun a c => a * 10 + (c.toNat - 48)) 0

/-- The exponent suffix of a Python float literal (`e`/`E` already consumed). -/
def parseExpSuffix (mant : ℚ) (t : List Char) : Option ℚ :=
  let (eneg, t1) :=
    match t with
    | '-' :: u => (true, u)
    | '+' :: u => (false, u)
    | _ => (false, t)
  let ed := t1.takeWhile Char.isDigit
  let t2 := t1.dropWhile Char.isDigit
  if ed.isEmpty || !t2.isEmpty then none
  else if eneg then some (mant / (10 : ℚ) ^ digitsToNat ed)
  else some (mant * (10 : ℚ) ^ digitsToNat ed)

/-- Python `float(s)` on finite decimal/exponent literals, as an exact
rational; `none` models `ValueError`. -/
def parseDecimal (s : String) : Option ℚ :=
  let cs := pyStripList s.toList
  let (neg, cs1) :=
    match cs with
    | '-' :: t => (true, t)
    | '+' :: t => (false, t)
    | _ => (false, cs)
  let ip := cs1.takeWhile Char.isDigit
  let cs2 := cs1.dropWhile Char.isDigit
  let (fp, cs3) :=
    match cs2 with
    | '.' :: t => (t.takeWhile Char.isDigit, t.dropWhile Char.isDigit)
    | _ => ([], cs2)
  if ip.isEmpty && fp.isEmpty then none
  else
    let mant : ℚ := (digitsToNat ip : ℚ) + (digitsToNat fp : ℚ) / (10 : ℚ) ^ fp.length
    let withExp : Option ℚ :=
      match cs3 with
      | [] => some mant
      | 'e' :: t => parseExpSuffix mant t
      | 'E' :: t => parseExpSuffix mant t
      | _ => none
    withExp.map (fun q => if neg then -q else q)

/-- A parsed CSV table (pandas DataFrame): column names and rows of cells;
`none` cells are NaN. -/
structure Df where
  columns : List String
  rows : List (List (Option String))
deriving Repr, DecidableEq

/-- `row[col]` positionally: the cell under the named column. -/
def dfCell (df : Df) (row : List (Option String)) (col : String) : Option String :=
  match df.columns.findIdx? (· == col) with
  | some i => (row.get? i).getD none
  | none => none

/-- Python-dict assignment on an association list: update in place if the
key is present (keeping its position), else append. -/
def dictInsert {β : Type} (l : List (String × β)) (k : String) (v : β) : List (String × β) :=
  match l with
  | [] => [(k, v)]
  | (k', v') :: t => if k' == k then (k', v) :: t else (k', v') :: dictInsert t k v

/-- Python-dict lookup with default. -/
def dictGet {β : Type} (l : List (String × β)) (k : String) (dflt : β) : β :=
  match l.find? (·.1 == k) with
  | some kv => kv.2
  | none => dflt

/-- A value stored in a per-row statistics dict: a float for metric keys, a
string for the internal `_unit` key. -/
inductive StatVal where
  | num (q : ℚ)
  | str (s : String)
deriving Repr, DecidableEq

/-- `ADFParser._is_comparison_table`: `'comp' in filename.lower()` or
`{'test','control','diff'}.issubset(set(df.columns))`. -/
def isComparisonTable (csvPath : String) (cols : List String) : Bool :=
  strContains (pyLower (pathName csvPath)) "comp" ||
    (["test", "control", "diff"].all (fun x => cols.contains x))

/-- The comparison-table column→metric pairs, in code order. -/
def comparisonPairs : List (String × String) :=
  [("test", "global_mean"), ("diff", "bias")]

/-- The single-case column→metric map, in its insertion (iteration) order. -/
def singleCasePairs : List (String × String) :=
  [("mean", "global_mean"), ("standard dev.", "std"),
   ("standard error", "std_error"), ("sample size", "sample_size")]

/-- The per-row metric loop shared by both table kinds: for each mapped
column present in the row with a non-NaN value, `float(...)` it into the
row's stats dict; `ValueError` is swallowed. -/
def extractRowStats (df : Df) (pairs : List (String × String))
    (row : List (Option String)) : List (String × StatVal) :=
  pairs.foldl
    (fun acc cm =>
      if df.columns.contains cm.1 then
        match dfCell df row cm.1 with
        | some v =>
          match parseDecimal v with
          | some q => dictInsert acc cm.2 (StatVal.num q)
          | none => acc
        | none => acc
      else acc)
    []

/-- `ADFParser.extract_statistics_from_csv`: variable → metric/`_unit` dict.
(Python's `not var_name` is true for the empty string; NaN variable cells
are the `none` case.) -/
def extractStatisticsFromCsv (csvPath : String) (df : Df) :
    List (String × List (String × StatVal)) :=
  if df.rows.isEmpty then []
  else
    match df.columns with
    | [] => []
    | varCol :: _ =>
      let isComp := isComparisonTable csvPath df.columns
      df.rows.foldl
        (fun stats row =>
          match dfCell df row varCol with
          | none => stats
          | some rawName =>
            if rawName = "" then stats
            else
              let varName := pyStrip rawName
              let pairs := if isComp then comparisonPairs else singleCasePairs
              let varStats := extractRowStats df pairs row
              let varStats :=
                if df.columns.contains "unit" then
                  match dfCell df row "unit" with
                  | some u => dictInsert varStats "_unit" (StatVal.str u)
                  | none => varStats
                else varStats
              if varStats.isEmpty then stats else dictInsert stats varName varStats)
        []

/-- Temporal periods recognised in filenames, in code order. -/
def temporalPeriods : List String :=
  ["ANN", "DJF", "MAM", "JJA", "SON",
   "Jan", "Feb", "Mar", "Apr", "May", "Jun",
   "Jul", "Aug", "Sep", "Oct", "Nov", "Dec"]

/-- `re.search(r'yrs_(\d+)_(\d+)', s)`: leftmost occurrence of the literal
`yrs_` followed by a maximal digit run, `_`, and another digit run. -/
def findYrs : List Char → Option (List Char × List Char)
  | [] => none
  | c :: t =>
    if "yrs_".toList.isPrefixOf (c :: t) then
      let rest := (c :: t).drop 4
      let d1 := rest.takeWhile Char.isDigit
      let rest1 := rest.dropWhile Char.isDigit
      if !d1.isEmpty then
        match rest1 with
        | '_' :: rest2 =>
          let d2 := rest2.takeWhile Char.isDigit
          if !d2.isEmpty then some (d1, d2) else findYrs t
        | _ => findYrs t
      else findYrs t
    else findYrs t

/-- `ADFParser.infer_temporal_period`. -/
def inferTemporalPeriod (csvPath : String) : String :=
  let filename := pathName csvPath
  match temporalPeriods.find? (fun per => strContains filename per) with
  | some per => per
  | none =>
    match findYrs csvPath.toList with
    | some (d1, d2) => "yrs_" ++ String.mk d1 ++ "_" ++ String.mk d2
    | none => "ANN"

/-- `ADFParser.parse_all_tables_in_directory`: its directory walk is
modelled by the input list of `(path, parsed CSV)` pairs (`none` = parse
error).  Metric keys never start with `_`, and their dict values are always
floats, so the merged period → variable → metric map stores rationals. -/
def parseAllTablesInDirectory (csvFiles : List (String × Option Df)) :
    List (String × List (String × List (String × ℚ))) :=
  csvFiles.foldl
    (fun allStats pf =>
      match pf.2 with
      | none => allStats
      | some df =>
        let period := inferTemporalPeriod pf.1
        let stats := extractStatisticsFromCsv pf.1 df
        if stats.isEmpty then allStats
        else
          stats.foldl
            (fun acc vs =>
              let perDict := dictGet acc period []
              let varDict := dictGet perDict vs.1 []
              let newVarDict := vs.2.foldl
                (fun vd kv =>
                  match kv.1.toList with
                  | '_' :: _ => vd
                  | _ =>
                    match kv.2 with
                    | StatVal.num q => dictInsert vd kv.1 q
                    | StatVal.str _ => vd)
                varDict
              dictInsert acc period (dictInsert perDict vs.1 newVarDict))
            allStats)
    []

/-- One row handed to the database bulk insert (`StatisticRecord`). -/
structure StatRecord where
  diagnostic_id : Int
  variable_name : String
  temporal_period : String
  metric_name : String
  value : ℚ
  units : Option String
deriving Repr, DecidableEq

/-- `ADFParser.extract_statistics_list`: flatten the merged statistics into
database rows; the code passes `'units': None` for every record. -/
def extractStatisticsList (csvFiles : List (String × Option Df))
    (diagId : Int) : List StatRecord :=
  (parseAllTablesInDirectory csvFiles).foldl
    (fun acc per =>
      per.2.foldl
        (fun acc2 vars =>
          vars.2.foldl
            (fun acc3 met =>
              acc3 ++ [{ diagnostic_id := diagId, variable_name := vars.1,
                         temporal_period := per.1, metric_name := met.1,
                         value := met.2, units := none }])
            acc2)
        acc)
    []

/-! ### Lemmas and claim theorems about the ADF parser -/

/-- Python's `in` on character lists is exactly infix decomposition. -/
theorem hasSub_iff (l sub : List Char) :
    hasSub l sub = true ↔ ∃ pre post, l = pre ++ sub ++ post := by
  induction l with
  | nil =>
    simp only [hasSub, List.isEmpty_iff]
    constructor
    · rintro rfl
      exact ⟨[], [], rfl⟩
    · rintro ⟨pre, post, h⟩
      rcases List.append_eq_nil.mp (List.append_eq_nil.mp h.symm).1 with ⟨-, h2⟩
      exact h2
  | cons c t ih =>
    simp only [hasSub, Bool.or_eq_true]
    constructor
    · rintro (hp | hs)
      · rcases List.isPrefixOf_iff_prefix.mp hp with ⟨post, hpost⟩
        exact ⟨[], post, by simp [← hpost]⟩
      · rcases ih.mp hs with ⟨pre, post, hpp⟩
        exact ⟨c :: pre, post, by simp [hpp]⟩
    · rintro ⟨pre, post, hpp⟩
      match pre, hpp with
      | [], hpp =>
        left
        exact List.isPrefixOf_iff_prefix.mpr ⟨post, by simp [hpp]⟩
      | p :: pre', hpp =>
        right
        simp only [List.cons_append, List.cons.injEq] at hpp
        exact ih.mpr ⟨pre', post, hpp.2⟩

/-- The spec's classification condition: a comparison marker in the
filename, or a column set EXACTLY `{variable, unit, test, control, diff}`. -/
def specIsComparison (csvPath : String) (cols : List String) : Prop :=
  strContains (pyLower (pathName csvPath)) "comp" = true ∨
    cols.toFinset = ({"variable", "unit", "test", "control", "diff"} : Finset String)

/-- C3 (counterexample): a table named `table.csv` (no marker) whose columns
are the five comparison columns PLUS an extra one is classified as a
comparison table by the code (which only checks
`{'test','control','diff'} ⊆ columns`), while the claim's exact-column-set
condition calls it single-case. -/
theorem comparison_classification_counterexample :
    isComparisonTable "table.csv"
      ["variable", "unit", "test", "control", "diff", "extra"] = true ∧
    ¬ specIsComparison "table.csv"
      ["variable", "unit", "test", "control", "diff", "extra"] := by
  constructor
  · rfl
  · rw [specIsComparison]
    decide

/-- C3 (amended): the code classifies a source as a comparison table iff its
filename (lowercased) contains the substring `comp`, or its column set
CONTAINS all of `test`, `control` and `diff` (a superset check, not an exact
five-column match); everything else is treated as single-case. -/
theorem comparison_iff_marker_or_superset (csvPath : String) (cols : List String) :
    isComparisonTable csvPath cols = true ↔
      ((∃ pre post, (pyLower (pathName csvPath)).toList =
          pre ++ "comp".toList ++ post) ∨
       ("test" ∈ cols ∧ "control" ∈ cols ∧ "diff" ∈ cols)) := by
  have hcm : ∀ (l : List String) (x : String), l.contains x = true ↔ x ∈ l := by
    intro l x
    simp [List.contains, List.elem_iff]
  simp only [isComparisonTable, Bool.or_eq_true, strContains]
  constructor
  · rintro (hm | hsub)
    · exact Or.inl ((hasSub_iff _ _).mp hm)
    · simp only [List.all_eq_true, List.mem_cons] at hsub
      exact Or.inr ⟨(hcm _ _).mp (hsub "test" (by simp)),
        (hcm _ _).mp (hsub "control" (by simp)),
        (hcm _ _).mp (hsub "diff" (by simp))⟩
  · rintro (hm | ⟨h1, h2, h3⟩)
    · exact Or.inl ((hasSub_iff _ _).mpr hm)
    · right
      simp only [List.all_eq_true, List.mem_cons]
      rintro x (rfl | rfl | rfl | h)
      · exact (hcm _ _).mpr h1
      · exact (hcm _ _).mpr h2
      · exact (hcm _ _).mpr h3
      · simp at h

/-- C2 (evaluation at the failing input): the single-case row
`TS,K,288.5,30,1.2,0.3,0.1,,` yields exactly four statistic records with
the advertised metrics and values — but `extract_statistics_list` emits
every one of them with `units = None`, even though
`extract_statistics_from_csv` captured the row's unit `K` under the
internal `_unit` key (which the aggregation step filters out). -/
theorem single_case_row_unit_dropped :
    extractStatisticsFromCsv "/d/amwg_table_case.csv"
      { columns := ["variable", "unit", "mean", "sample size", "standard dev.",
                    "standard error", "95% CI", "trend", "trend p-value"],
        rows := [[some "TS", some "K", some "288.5", some "30", some "1.2",
                  some "0.3", some "0.1", none, none]] } =
      [("TS", [("global_mean", StatVal.num (577 / 2)),
               ("std", StatVal.num (6 / 5)),
               ("std_error", StatVal.num (3 / 10)),
               ("sample_size", StatVal.num 30),
               ("_unit", StatVal.str "K")])] ∧
    extractStatisticsList
      [("/d/amwg_table_case.csv", some
        { columns := ["variable", "unit", "mean", "sample size", "standard dev.",
                      "standard error", "95% CI", "trend", "trend p-value"],
          rows := [[some "TS", some "K", some "288.5", some "30", some "1.2",
                    some "0.3", some "0.1", none, none]] })] 7 =
      [{ diagnostic_id := 7, variable_name := "TS", temporal_period := "ANN",
         metric_name := "global_mean", value := 577 / 2, units := none },
       { diagnostic_id := 7, variable_name := "TS", temporal_period := "ANN",
         metric_name := "std", value := 6 / 5, units := none },
       { diagnostic_id := 7, variable_name := "TS", temporal_period := "ANN",
         metric_name := "std_error", value := 3 / 10, units := none },
       { diagnostic_id := 7, variable_name := "TS", temporal_period := "ANN",
         metric_name := "sample_size", value := 30, units := none }] := by
  constructor
  · decide
  · decide

/-! ## Filesystem collector (`src/collectors/filesystem_collector.py`)

Filesystem state is an explicit oracle: `pathExists`/`isDir` model
`os.path.exists`/`os.path.isdir`; `walkFiles` models the joined file paths
produced by `os.walk` (in walk order); `mtime` models `os.path.getmtime`
(`none` = `OSError`); `scanDir` models `os.scandir` entries as
`(name, is_dir)` pairs; `globMatch parent name` models
`Path(parent).glob(name)`. -/

/-- Two-argument `os.path.join`. -/
def pyJoin (a b : String) : String :=
  if strStarts b "/" then b
  else if a = "" || strEnds a "/" then a ++ b
  else a ++ "/" ++ b

/-- `Path(p).parent` (for the slash-separated paths used here). -/
def pathParent (p : String) : String :=
  let cs := p.toList
  match cs.reverse.findIdx? (· = '/') with
  | none => "."
  | some rIdx =>
    let i := cs.length - 1 - rIdx
    if i = 0 then "/" else String.mk (cs.take i)

/-- The filesystem oracle. -/
structure Fs where
  pathExists : String → Bool
  isDir : String → Bool
  walkFiles : String → List String
  mtime : String → Option Int
  scanDir : String → List (String × Bool)
  globMatch : String → String → List String

/-- `DiagnosticsInfo` (dataclass in `filesystem_collector.py`). -/
structure DiagnosticsInfo where
  path : String
  exists_ : Bool
  diagnostic_type : String := "AMWG"
  csv_files : List String := []
  last_modified : Option Int := none
  file_count : Nat := 0
deriving Repr, DecidableEq

/-- `FilesystemCollector.scan_amwg_tables`: recursively collect `*.csv`. -/
def scanAmwgTables (fs : Fs) (diagnosticPath : String) : List String :=
  (fs.walkFiles diagnosticPath).filter (fun f => strEnds f ".csv")

/-- `FilesystemCollector._scan_diagnostics_directory`: always `exists=True`;
`last_modified` is the maximum mtime of the CSV files, absent when there are
none or when any stat fails. -/
def scanDiagnosticsDirectory (fs : Fs) (diagPath : String) : DiagnosticsInfo :=
  let csvs := scanAmwgTables fs diagPath
  let lastMod : Option Int :=
    if csvs.isEmpty then none
    else
      match csvs.mapM fs.mtime with
      | some [] => none
      | some (h :: t) => some (t.foldl max h)
      | none => none
  { path := diagPath
    exists_ := true
    diagnostic_type := "AMWG"
    csv_files := csvs
    last_modified := lastMod
    file_count := csvs.length }

/-- The collector's configured base paths. -/
structure FsConfig where
  cesm_runs_base : Option String
  amwg_climo_base : Option String
  scratch_base : String
  adf_output_bases : List String

/-- `FilesystemCollector._is_diagnostics_directory`. -/
def isDiagnosticsDirectory (p : String) : Bool :=
  ["diagnostic", "amwg", "climo", "postprocess", "diag"].any
    (fun ind => strContains (pyLower p) ind)

/-- Strategy 1: first ADF output base with a subdirectory named after the case. -/
def strategyAdfBases (fs : Fs) (cfg : FsConfig) (caseName : String) :
    Option DiagnosticsInfo :=
  match cfg.adf_output_bases.find? (fun b => fs.isDir (pyJoin b caseName)) with
  | some b => some (scanDiagnosticsDirectory fs (pyJoin b caseName))
  | none => none

/-- Strategy 2: the standard AMWG climo location. -/
def strategyAmwgClimo (fs : Fs) (cfg : FsConfig) (caseName : String) :
    Option DiagnosticsInfo :=
  match cfg.amwg_climo_base with
  | some climo =>
    if fs.pathExists (pyJoin climo caseName) then
      some (scanDiagnosticsDirectory fs (pyJoin climo caseName))
    else none
  | none => none

/-- Strategy 3: conventional subdirectories of the known case directory
(`if case_dir and ...`: an empty-string hint is falsy). -/
def strategyCaseSubdirs (fs : Fs) (caseDir : Option String) :
    Option DiagnosticsInfo :=
  match caseDir with
  | some cd =>
    if cd ≠ "" && fs.pathExists cd then
      match ["diagnostics", "diag", "postprocess"].find?
          (fun sub => fs.pathExists (pyJoin cd sub)) with
      | some sub => some (scanDiagnosticsDirectory fs (pyJoin cd sub))
      | none => none
    else none
  | none => none

/-- Strategy 4: issue-supplied paths that exist and look like diagnostics. -/
def strategyAdditionalPaths (fs : Fs) (additionalPaths : List String) :
    Option DiagnosticsInfo :=
  match additionalPaths.find?
      (fun p => fs.pathExists p && isDiagnosticsDirectory p) with
  | some p => some (scanDiagnosticsDirectory fs p)
  | none => none

/-- Strategy 5: glob patterns against the climo and scratch bases; the first
pattern with matches wins and its first match is scanned. -/
def strategyGlobPatterns (fs : Fs) (cfg : FsConfig) (caseName : String) :
    Option DiagnosticsInfo :=
  let patterns : List (Option String) :=
    [cfg.amwg_climo_base.map (fun climo => pyJoin climo ("*" ++ caseName ++ "*")),
     some (pyJoin (pyJoin (pyJoin (pyJoin cfg.scratch_base "*")
       "diagnostics-output") "atm") (pyJoin "climo" caseName))]
  match patterns.findSome?
      (fun pat? => pat?.bind
        (fun pat => (fs.globMatch (pathParent pat) (pathName pat)).head?)) with
  | some p => some (scanDiagnosticsDirectory fs p)
  | none => none

/-- `FilesystemCollector.find_diagnostics`: ordered strategies, first
success wins. -/
def findDiagnostics (fs : Fs) (cfg : FsConfig) (caseName : String)
    (caseDir : Option String) (additionalPaths : List String) :
    Option DiagnosticsInfo :=
  match strategyAdfBases fs cfg caseName with
  | some r => some r
  | none =>
    match strategyAmwgClimo fs cfg caseName with
    | some r => some r
    | none =>
      match strategyCaseSubdirs fs caseDir with
      | some r => some r
      | none =>
        match strategyAdditionalPaths fs additionalPaths with
        | some r => some r
        | none => strategyGlobPatterns fs cfg caseName

/-- `parts[-2]` owner extraction in `find_adf_diagnostics_expanded`. -/
def userFromBase (base : String) : String :=
  let parts := ((dropTrailing (· = '/') base.toList).splitOn '/').map String.mk
  if parts.length ≥ 3 then parts.getD (parts.length - 2) "unknown" else "unknown"

/-- One entry of the expanded multi-base search result. -/
structure AdfMatch where
  adf_base : String
  path : String
  csv_count : Nat
  csv_files : List String
  user : String
deriving Repr, DecidableEq

/-- The per-base contribution of `find_adf_diagnostics_expanded`: skip
non-directories; an exact-name subdirectory short-circuits the substring
scan (the `else` branch), which otherwise collects every directory entry
containing the case name. -/
def expandedDelta (fs : Fs) (caseName base : String) : List AdfMatch :=
  if !fs.isDir base then []
  else
    let user := userFromBase base
    let adfCaseDir := pyJoin base caseName
    if fs.isDir adfCaseDir then
      let csvs := scanAmwgTables fs adfCaseDir
      [{ adf_base := base, path := adfCaseDir, csv_count := csvs.length,
         csv_files := csvs, user := user }]
    else
      (fs.scanDir base).filterMap
        (fun entry =>
          if entry.2 && strContains entry.1 caseName then
            let epath := pyJoin base entry.1
            let csvs := scanAmwgTables fs epath
            some { adf_base := base, path := epath, csv_count := csvs.length,
                   csv_files := csvs, user := user }
          else none)

/-- `FilesystemCollector.find_adf_diagnostics_expanded`. -/
def findAdfDiagnosticsExpanded (fs : Fs) (caseName : String)
    (adfBases : List String) : List AdfMatch :=
  adfBases.foldl (fun ms base => ms ++ expandedDelta fs caseName base) []

/-! ### Claim theorems about the filesystem collector -/

theorem scanDiagnosticsDirectory_exists (fs : Fs) (p : String) :
    (scanDiagnosticsDirectory fs p).exists_ = true := rfl

theorem strategyAdfBases_exists {fs : Fs} {cfg : FsConfig} {c : String}
    {info : DiagnosticsInfo} (h : strategyAdfBases fs cfg c = some info) :
    info.exists_ = true := by
  unfold strategyAdfBases at h
  split at h
  · injection h with h'
    subst h'
    rfl
  · exact absurd h (by simp)

theorem strategyAmwgClimo_exists {fs : Fs} {cfg : FsConfig} {c : String}
    {info : DiagnosticsInfo} (h : strategyAmwgClimo fs cfg c = some info) :
    info.exists_ = true := by
  unfold strategyAmwgClimo at h
  split at h
  · split at h
    · injection h with h'
      subst h'
      rfl
    · exact absurd h (by simp)
  · exact absurd h (by simp)

theorem strategyCaseSubdirs_exists {fs : Fs} {cd : Option String}
    {info : DiagnosticsInfo} (h : strategyCaseSubdirs fs cd = some info) :
    info.exists_ = true := by
  unfold strategyCaseSubdirs at h
  split at h
  · split at h
    · split at h
      · injection h with h'
        subst h'
        rfl
      · exact absurd h (by simp)
    · exact absurd h (by simp)
  · exact absurd h (by simp)

theorem strategyAdditionalPaths_exists {fs : Fs} {ap : List String}
    {info : DiagnosticsInfo} (h : strategyAdditionalPaths fs ap = some info) :
    info.exists_ = true := by
  unfold strategyAdditionalPaths at h
  split at h
  · injection h with h'
    subst h'
    rfl
  · exact absurd h (by simp)

theorem strategyGlobPatterns_exists {fs : Fs} {cfg : FsConfig} {c : String}
    {info : DiagnosticsInfo} (h : strategyGlobPatterns fs cfg c = some info) :
    info.exists_ = true := by
  unfold strategyGlobPatterns at h
  dsimp only at h
  split at h
  · injection h with h'
    subst h'
    rfl
  · exact absurd h (by simp)

/-- C10: the local resolver either returns absent or a record with
`exists = True`; a record with `exists = False` is never produced, so the
spec's "check `exists` first" is vacuous for locally resolved results. -/
theorem find_diagnostics_some_exists (fs : Fs) (cfg : FsConfig)
    (caseName : String) (caseDir : Option String) (additionalPaths : List String)
    {info : DiagnosticsInfo}
    (h : findDiagnostics fs cfg caseName caseDir additionalPaths = some info) :
    info.exists_ = true := by
  unfold findDiagnostics at h
  split at h
  · injection h with h'
    subst h'
    exact strategyAdfBases_exists (by assumption)
  · split at h
    · injection h with h'
      subst h'
      exact strategyAmwgClimo_exists (by assumption)
    · split at h
      · injection h with h'
        subst h'
        exact strategyCaseSubdirs_exists (by assumption)
      · split at h
        · injection h with h'
          subst h'
          exact strategyAdditionalPaths_exists (by assumption)
        · exact strategyGlobPatterns_exists h

/-- A concrete filesystem in which strategy 1 succeeds, used to witness
`find_diagnostics_some_exists`. -/
def demoFs : Fs :=
  { pathExists := fun _ => false
    isDir := fun p => p == "/adf/case1"
    walkFiles := fun _ => []
    mtime := fun _ => none
    scanDir := fun _ => []
    globMatch := fun _ _ => [] }

/-- Configuration for the witness filesystem. -/
def demoCfg : FsConfig :=
  { cesm_runs_base := none
    amwg_climo_base := none
    scratch_base := "/glade/scratch"
    adf_output_bases := ["/adf"] }

/-- Witness for `find_diagnostics_some_exists` at a concrete filesystem. -/
theorem find_diagnostics_some_exists_witness :
    ({ path := "/adf/case1", exists_ := true, diagnostic_type := "AMWG",
       csv_files := [], last_modified := none,
       file_count := 0 } : DiagnosticsInfo).exists_ = true :=
  find_diagnostics_some_exists demoFs demoCfg "case1" none [] (by rfl)

/-- A concrete filesystem with BOTH an exact-name subdirectory and a
substring-match subdirectory under one ADF base. -/
def c9Fs : Fs :=
  { pathExists := fun _ => false
    isDir := fun p => p == "/g/u/ADF" || p == "/g/u/ADF/case1" || p == "/g/u/ADF/case1_x"
    walkFiles := fun _ => []
    mtime := fun _ => none
    scanDir := fun p => if p == "/g/u/ADF" then [("case1", true), ("case1_x", true)] else []
    globMatch := fun _ _ => [] }

/-- C9 (counterexample): with an exact-name subdirectory present, the
expanded search returns ONLY the exact match — the substring scan lives in
the `else` branch — although `case1_x` is an immediate subdirectory
containing the case name, which the claim says must also be returned. -/
theorem expanded_search_skips_substring_counterexample :
    findAdfDiagnosticsExpanded c9Fs "case1" ["/g/u/ADF"] =
      [{ adf_base := "/g/u/ADF", path := "/g/u/ADF/case1", csv_count := 0,
         csv_files := [], user := "u" }] ∧
    ("case1_x", true) ∈ c9Fs.scanDir "/g/u/ADF" ∧
    strContains "case1_x" "case1" = true ∧
    ∀ m ∈ findAdfDiagnosticsExpanded c9Fs "case1" ["/g/u/ADF"],
      m.path ≠ "/g/u/ADF/case1_x" := by
  refine ⟨by decide, by decide, by decide, ?_⟩
  decide

/-- Membership in a fold that appends per-element contributions. -/
theorem mem_foldl_append {α β : Type} (f : α → List β) (m : β) :
    ∀ (l : List α) (acc : List β),
      (m ∈ l.foldl (fun a b => a ++ f b) acc ↔ m ∈ acc ∨ ∃ b ∈ l, m ∈ f b) := by
  intro l
  induction l with
  | nil => simp
  | cons b bs ih =>
    intro acc
    rw [List.foldl_cons, ih]
    simp only [List.mem_append, List.mem_cons]
    constructor
    · rintro ((h | h) | ⟨x, hx, hm⟩)
      · exact Or.inl h
      · exact Or.inr ⟨b, Or.inl rfl, h⟩
      · exact Or.inr ⟨x, Or.inr hx, hm⟩
    · rintro (h | ⟨x, (rfl | hx), hm⟩)
      · exact Or.inl (Or.inl h)
      · exact Or.inl (Or.inr hm)
      · exact Or.inr ⟨x, hx, hm⟩

/-- Per-base membership characterization of the expanded search. -/
theorem mem_expandedDelta_iff (fs : Fs) (caseName base : String) (m : AdfMatch) :
    m ∈ expandedDelta fs caseName base ↔
      fs.isDir base = true ∧ m.adf_base = base ∧ m.user = userFromBase base ∧
      ((fs.isDir (pyJoin base caseName) = true ∧ m.path = pyJoin base caseName ∧
        m.csv_files = scanAmwgTables fs (pyJoin base caseName) ∧
        m.csv_count = m.csv_files.length) ∨
       (fs.isDir (pyJoin base caseName) = false ∧
        ∃ entry ∈ fs.scanDir base, entry.2 = true ∧
          strContains entry.1 caseName = true ∧ m.path = pyJoin base entry.1 ∧
          m.csv_files = scanAmwgTables fs m.path ∧
          m.csv_count = m.csv_files.length)) := by
  unfold expandedDelta
  obtain ⟨ab, pa, cc, cf, us⟩ := m
  cases hb : fs.isDir base with
  | false => simp [hb]
  | true =>
    cases hd : fs.isDir (pyJoin base caseName) with
    | true =>
      simp only [hb, hd, Bool.not_true, Bool.false_eq_true, if_false, if_true,
        List.mem_singleton, AdfMatch.mk.injEq, true_and, false_and, or_false,
        and_true]
      constructor
      · rintro ⟨rfl, rfl, rfl, rfl, rfl⟩
        simp
      · rintro ⟨rfl, rfl, h⟩
        rcases h with ⟨rfl, hcf, hcc⟩ | ⟨hfalse, -⟩
        · subst hcf
          exact ⟨rfl, rfl, hcc, rfl, rfl⟩
        · exact absurd hfalse (by simp)
    | false =>
      simp only [hb, hd, Bool.not_true, Bool.false_eq_true, if_false,
        List.mem_filterMap, true_and, false_and, false_or]
      constructor
      · rintro ⟨entry, hmem, hsome⟩
        split at hsome
        · rename_i hcond
          injection hsome with h'
          simp only [AdfMatch.mk.injEq] at h'
          obtain ⟨rfl, rfl, rfl, rfl, rfl⟩ := h'
          exact ⟨rfl, rfl, entry, hmem, ((Bool.and_eq_true ..).mp hcond).1,
            ((Bool.and_eq_true ..).mp hcond).2, rfl, rfl, rfl⟩
        · exact absurd hsome (by simp)
      · rintro ⟨rfl, rfl, entry, hmem, hdir, hsub, rfl, hf, hc⟩
        refine ⟨entry, hmem, ?_⟩
        rw [hdir, hsub]
        simp only [Bool.and_self, if_true]
        subst hf
        simp [hc]

/-- C9 (amended): the expanded multi-base search returns, for each existing
base directory, the exact-name subdirectory when it exists; ONLY otherwise
does it scan the base's immediate subdirectories and return every one
containing the case name as a substring.  Every match carries the owner
derived from the base path's second-to-last segment and its table-file
count. -/
theorem expanded_search_characterization (fs : Fs) (caseName : String)
    (bases : List String) (m : AdfMatch) :
    m ∈ findAdfDiagnosticsExpanded fs caseName bases ↔
      ∃ base ∈ bases,
        fs.isDir base = true ∧ m.adf_base = base ∧ m.user = userFromBase base ∧
        ((fs.isDir (pyJoin base caseName) = true ∧ m.path = pyJoin base caseName ∧
          m.csv_files = scanAmwgTables fs (pyJoin base caseName) ∧
          m.csv_count = m.csv_files.length) ∨
         (fs.isDir (pyJoin base caseName) = false ∧
          ∃ entry ∈ fs.scanDir base, entry.2 = true ∧
            strContains entry.1 caseName = true ∧ m.path = pyJoin base entry.1 ∧
            m.csv_files = scanAmwgTables fs m.path ∧
            m.csv_count = m.csv_files.length)) := by
  unfold findAdfDiagnosticsExpanded
  rw [mem_foldl_append (expandedDelta fs caseName) m bases []]
  simp only [List.not_mem_nil, false_or]
  constructor
  · rintro ⟨b, hb, hm⟩
    exact ⟨b, hb, (mem_expandedDelta_iff fs caseName b m).mp hm⟩
  · rintro ⟨b, hb, hP⟩
    exact ⟨b, hb, (mem_expandedDelta_iff fs caseName b m).mpr hP⟩

/-! ## Web collector (`src/collectors/web_collector.py`)

HTTP is an oracle `pages : String → List String` giving the href values
parsed from each fetched page (`[]` models both an empty page and an HTTP
error).  The traversal is instrumented: it returns the found
`(html_url, period)` pairs together with the list of URLs it fetched, so
that the host allow-list invariant can be stated about every fetch. -/

/-- `ALLOWED_HOSTS` in `web_collector.py`. -/
def ALLOWED_HOSTS : List String := ["webext.cgd.ucar.edu"]

/-- `MAX_NAV_DEPTH` in `web_collector.py`. -/
def MAX_NAV_DEPTH : Nat := 4

/-- Split a URL at its first `://`, if any. -/
def splitSchemeSep : List Char → Option (List Char × List Char)
  | [] => none
  | c :: t =>
    if "://".toList.isPrefixOf (c :: t) then some ([], (c :: t).drop 3)
    else
      match splitSchemeSep t with
      | some (pre, post) => some (c :: pre, post)
      | none => none

/-- `urlparse(url).netloc` for the absolute (`scheme://host/...`) and
scheme-relative (`//host/...`) URL shapes; other shapes have no netloc. -/
def parseNetloc (url : String) : String :=
  match splitSchemeSep url.toList with
  | some (_, post) =>
    String.mk (post.takeWhile (fun c => c ≠ '/' && c ≠ '?' && c ≠ '#'))
  | none =>
    if strStarts url "//" then
      String.mk ((url.toList.drop 2).takeWhile
        (fun c => c ≠ '/' && c ≠ '?' && c ≠ '#'))
    else ""

/-- `WebDiagnosticsCollector._is_allowed_url`. -/
def isAllowedUrl (url : String) : Bool :=
  ALLOWED_HOSTS.contains (parseNetloc url)

/-- The directory part of a URL path: everything up to and including the
last `/` (or `/` itself when the path is empty). -/
def dirOfPath (cs : List Char) : List Char :=
  match cs.reverse.findIdx? (· = '/') with
  | none => ['/']
  | some rIdx => cs.take (cs.length - rIdx)

/-- `urllib.parse.urljoin` for the URL shapes this traversal produces:
absolute hrefs win; `//host/...` keeps the base scheme; `/path` keeps the
base host; anything else replaces the base's last path segment. -/
def urljoin (base href : String) : String :=
  if (splitSchemeSep href.toList).isSome then href
  else if strStarts href "//" then
    match splitSchemeSep base.toList with
    | some (scheme, _) => String.mk scheme ++ ":" ++ href
    | none => href
  else
    match splitSchemeSep base.toList with
    | some (scheme, post) =>
      let netloc := post.takeWhile (fun c => c ≠ '/' && c ≠ '?' && c ≠ '#')
      let path := post.drop netloc.length
      let schemeNetloc := String.mk scheme ++ "://" ++ String.mk netloc
      if strStarts href "/" then schemeNetloc ++ href
      else schemeNetloc ++ String.mk (dirOfPath path) ++ href
    | none =>
      if strStarts href "/" then href
      else String.mk (dirOfPath base.toList) ++ href

/-- `WebDiagnosticsCollector._resolve_link`: drop empty/fragment/query
hrefs, resolve against the base, and drop any resolution whose host is off
the allow-list. -/
def resolveLink (baseUrl href : String) : Option String :=
  if href = "" || strStarts href "#" || strStarts href "?" then none
  else
    let resolved := urljoin baseUrl href
    if ALLOWED_HOSTS.contains (parseNetloc resolved) then some resolved
    else none

/-- The named-period list in `_infer_period_from_url` (the module repeats
the ADF parser's list). -/
def webNamedPeriods : List String :=
  ["ANN", "DJF", "MAM", "JJA", "SON",
   "Jan", "Feb", "Mar", "Apr", "May", "Jun",
   "Jul", "Aug", "Sep", "Oct", "Nov", "Dec"]

/-- `WebDiagnosticsCollector._infer_period_from_url`; its `yrs_...` and
`..._vs_...` regex branches both return `'ANN'`, as does the default, so
only the named-period scan distinguishes outputs. -/
def inferPeriodFromUrl (url : String) : String :=
  match webNamedPeriods.find?
      (fun per => strContains url ("/" ++ per ++ "/") || strEnds url ("/" ++ per)) with
  | some per => per
  | none => "ANN"

/-- `resolved.split('/')[-1]` (no rstrip). -/
def splitLastRaw (s : String) : String :=
  String.mk ((s.toList.splitOn '/').getLastD [])

/-- `resolved.rstrip('/').split('/')[-1]`. -/
def lastSegOf (s : String) : String :=
  String.mk (((dropTrailing (· = '/') s.toList).splitOn '/').getLastD [])

/-- The link-classification loop body of `_navigate_for_tables`: returns
the collected `(table_url, period)` pairs and the directories to follow,
in link order. -/
def processLinks (url caseName : String) : List String →
    List (String × String) × List String
  | [] => ([], [])
  | href :: t =>
    let rest := processLinks url caseName t
    match resolveLink url href with
    | none => rest
    | some resolved =>
      if strContains resolved "amwg_table_" && strEnds resolved ".html" then
        ((resolved, inferPeriodFromUrl resolved) :: rest.1, rest.2)
      else if strEnds resolved "/" || !strContains (splitLastRaw resolved) "." then
        if ["html_table", "atm", (pyLower caseName).take 12].any
            (fun tok => strContains (pyLower (lastSegOf resolved)) tok) then
          (rest.1, resolved :: rest.2)
        else rest
      else rest

/-- The child-directory loop of `_navigate_for_tables`: recurse into each
promising directory, stopping as soon as any tables have been found. -/
def followDirs (nav : String → List (String × String) × List String) :
    List String → List (String × String) → List (String × String) × List String
  | [], found => (found, [])
  | d :: t, found =>
    if !found.isEmpty then (found, [])
    else
      let r := nav d
      let rest := followDirs nav t (found ++ r.1)
      (rest.1, r.2 ++ rest.2)

/-- `WebDiagnosticsCollector._navigate_for_tables` with explicit fuel
(`fuel = MAX_NAV_DEPTH + 1 - depth`; the `depth > MAX_NAV_DEPTH` guard is
`fuel = 0`), instrumented with the list of fetched URLs. -/
def navigateForTables (pages : String → List String) (caseName : String) :
    Nat → String → List (String × String) × List String
  | 0, _ => ([], [])
  | fuel + 1, url =>
    let links := pages url
    if links.isEmpty then ([], [url])
    else
      let pl := processLinks url caseName links
      let fin := followDirs (navigateForTables pages caseName fuel) pl.2 pl.1
      (fin.1, url :: fin.2)

/-- `WebDiagnosticsCollector.find_html_table_urls` (instrumented): reject a
disallowed base outright, take a direct `amwg_table_*.html` hit as-is, or
navigate from the base at depth 0. -/
def findHtmlTableUrlsTraced (pages : String → List String)
    (baseUrl caseName : String) : List (String × String) × List String :=
  if !isAllowedUrl baseUrl then ([], [])
  else if strContains baseUrl "amwg_table_" && strEnds baseUrl ".html" then
    ([(baseUrl, inferPeriodFromUrl baseUrl)], [])
  else navigateForTables pages caseName (MAX_NAV_DEPTH + 1) baseUrl

/-- `WebDiagnosticsCollector.find_html_table_urls` as the caller sees it. -/
def findHtmlTableUrls (pages : String → List String)
    (baseUrl caseName : String) : List (String × String) :=
  (findHtmlTableUrlsTraced pages baseUrl caseName).1

/-- Field names of the `DiagnosticsInfo` dataclass
(`filesystem_collector.py`, lines 14–26). -/
def diagnosticsInfoFields : List String :=
  ["path", "exists", "diagnostic_type", "csv_files", "last_modified", "file_count"]

/-- Keyword arguments passed to `DiagnosticsInfo(...)` by
`build_diagnostics_info` (`web_collector.py`, lines 168–176). -/
def buildDiagnosticsInfoKwargs : List String :=
  ["path", "exists", "diagnostic_type", "csv_files", "last_modified",
   "file_count", "source"]

/-- `WebDiagnosticsCollector.build_diagnostics_info`: `None` on an empty
find list; otherwise a dataclass construction, which raises `TypeError`
(modelled as `Except.error`) whenever a passed keyword is not a declared
field.  The success branch (unreachable, since `source` is not a field)
would carry `file_count = len(html_urls)`; its `datetime.utcnow()`
timestamp is modelled as `none`. -/
def buildDiagnosticsInfo (baseUrl caseName : String)
    (htmlUrls : List (String × String)) : Except String (Option DiagnosticsInfo) :=
  if htmlUrls.isEmpty then Except.ok none
  else if buildDiagnosticsInfoKwargs.all (fun k => diagnosticsInfoFields.contains k) then
    Except.ok (some
      { path := baseUrl, exists_ := true, diagnostic_type := "AMWG",
        csv_files := [], last_modified := none, file_count := htmlUrls.length })
  else Except.error "TypeError: __init__() got an unexpected keyword argument 'source'"

/-! ### Claim theorems about the web collector -/

/-- A link that survives `_resolve_link` is on the allow-list. -/
theorem resolveLink_allowed {baseUrl href r : String}
    (h : resolveLink baseUrl href = some r) : isAllowedUrl r = true := by
  unfold resolveLink at h
  split at h
  · exact absurd h (by simp)
  · dsimp only at h
    split at h
    · rename_i hok
      injection h with h'
      subst h'
      exact hok
    · exact absurd h (by simp)

/-- Everything `processLinks` collects or follows is on the allow-list. -/
theorem processLinks_allowed (url caseName : String) (links : List String) :
    (∀ fu ∈ (processLinks url caseName links).1, isAllowedUrl fu.1 = true) ∧
    (∀ u ∈ (processLinks url caseName links).2, isAllowedUrl u = true) := by
  induction links with
  | nil => simp [processLinks]
  | cons href t ih =>
    simp only [processLinks]
    split
    · exact ih
    · rename_i resolved hres
      split
      · refine ⟨?_, ih.2⟩
        intro fu hfu
        rcases List.mem_cons.mp hfu with rfl | hfu
        · exact resolveLink_allowed hres
        · exact ih.1 fu hfu
      · split
        · split
          · refine ⟨ih.1, ?_⟩
            intro u hu
            rcases List.mem_cons.mp hu with rfl | hu
            · exact resolveLink_allowed hres
            · exact ih.2 u hu
          · exact ih
        · exact ih

/-- `followDirs` preserves the allow-list invariant. -/
theorem followDirs_allowed
    {nav : String → List (String × String) × List String}
    (hnav : ∀ d, isAllowedUrl d = true →
      (∀ fu ∈ (nav d).1, isAllowedUrl fu.1 = true) ∧
      (∀ u ∈ (nav d).2, isAllowedUrl u = true)) :
    ∀ (dirs : List String) (found : List (String × String)),
      (∀ d ∈ dirs, isAllowedUrl d = true) →
      (∀ fu ∈ found, isAllowedUrl fu.1 = true) →
      (∀ fu ∈ (followDirs nav dirs found).1, isAllowedUrl fu.1 = true) ∧
      (∀ u ∈ (followDirs nav dirs found).2, isAllowedUrl u = true) := by
  intro dirs
  induction dirs with
  | nil =>
    intro found _ hfound
    exact ⟨hfound, by simp [followDirs]⟩
  | cons d t ih =>
    intro found hdirs hfound
    simp only [followDirs]
    split
    · exact ⟨hfound, by simp⟩
    · have hd : isAllowedUrl d = true := hdirs d (by simp)
      have hnavd := hnav d hd
      have hrec := ih (found ++ (nav d).1)
        (fun x hx => hdirs x (by simp [hx]))
        (fun fu hfu => by
          rcases List.mem_append.mp hfu with hfu | hfu
          · exact hfound fu hfu
          · exact hnavd.1 fu hfu)
      refine ⟨hrec.1, ?_⟩
      intro u hu
      rcases List.mem_append.mp hu with hu | hu
      · exact hnavd.2 u hu
      · exact hrec.2 u hu

/-- The bounded traversal never returns or fetches an off-allow-list URL
when started on an allowed URL. -/
theorem navigateForTables_allowed (pages : String → List String)
    (caseName : String) :
    ∀ (fuel : Nat) (url : String), isAllowedUrl url = true →
      (∀ fu ∈ (navigateForTables pages caseName fuel url).1,
        isAllowedUrl fu.1 = true) ∧
      (∀ u ∈ (navigateForTables pages caseName fuel url).2,
        isAllowedUrl u = true) := by
  intro fuel
  induction fuel with
  | zero => intro url _; simp [navigateForTables]
  | succ fuel ih =>
    intro url hurl
    simp only [navigateForTables]
    split
    · constructor
      · simp
      · intro u hu
        rcases List.mem_singleton.mp hu with rfl
        exact hurl
    · have hpl := processLinks_allowed url caseName (pages url)
      have hfd := followDirs_allowed ih (processLinks url caseName (pages url)).2
        (processLinks url caseName (pages url)).1 hpl.2 hpl.1
      refine ⟨hfd.1, ?_⟩
      intro u hu
      rcases List.mem_cons.mp hu with rfl | hu
      · exact hurl
      · exact hfd.2 u hu

/-- C7: for every starting URL, every page the Remote Resolver traversal
fetches and every table URL it returns is on the pre-approved host
allow-list; a disallowed starting URL is rejected without any fetch, and
off-host links discovered along the way are discarded silently (they are
neither followed nor returned). -/
theorem traversal_stays_on_allowed_hosts (pages : String → List String)
    (baseUrl caseName : String) :
    (∀ fu ∈ (findHtmlTableUrlsTraced pages baseUrl caseName).1,
      isAllowedUrl fu.1 = true) ∧
    (∀ u ∈ (findHtmlTableUrlsTraced pages baseUrl caseName).2,
      isAllowedUrl u = true) := by
  unfold findHtmlTableUrlsTraced
  split
  · simp
  · rename_i hallowed
    have hbase : isAllowedUrl baseUrl = true := by
      revert hallowed
      cases isAllowedUrl baseUrl <;> simp
    split
    · constructor
      · intro fu hfu
        rcases List.mem_singleton.mp hfu with rfl
        exact hbase
      · simp
    · exact navigateForTables_allowed pages caseName (MAX_NAV_DEPTH + 1) baseUrl hbase

/-- C1 (evaluation of the broken construction): whenever the Remote
Resolver's discovery succeeds (at least one table page found),
`build_diagnostics_info` raises `TypeError` instead of returning the
web-tagged location record: it passes `source='web'`, but the
`DiagnosticsInfo` dataclass declares no `source` field. -/
theorem build_diagnostics_info_raises {baseUrl caseName : String}
    {htmlUrls : List (String × String)} (h : htmlUrls ≠ []) :
    buildDiagnosticsInfo baseUrl caseName htmlUrls =
      Except.error "TypeError: __init__() got an unexpected keyword argument 'source'" := by
  unfold buildDiagnosticsInfo
  rw [if_neg (by simpa using h)]
  rfl

/-- Witness for `build_diagnostics_info_raises` at a concrete discovery
result. -/
theorem build_diagnostics_info_raises_witness :
    buildDiagnosticsInfo "https://webext.cgd.ucar.edu/c" "case1"
      [("https://webext.cgd.ucar.edu/c/html_table/amwg_table_case1.html", "ANN")] =
      Except.error "TypeError: __init__() got an unexpected keyword argument 'source'" :=
  build_diagnostics_info_raises (by simp)

/-! ## Issue parser (`src/parsers/issue_parser.py`)

The parser deduplicates extracted paths, mentions and URLs with
`list(set(...))`.  The order in which CPython iterates a set of strings
depends on the per-process hash salt (`PYTHONHASHSEED`), so it is NOT a
function of the input across separate runs.  The embedding therefore takes
the set-iteration order as an explicit oracle
`ord : List String → List String`, constrained only to produce a
duplicate-free reordering of its input (`ValidSetOrder`). -/

/-- The `re` class `[^\s\)\"\'<>]` used by the glade-path and URL patterns. -/
def isPathChar (c : Char) : Bool :=
  !isPySpace c && c ≠ ')' && c ≠ '"' && c ≠ '\'' && c ≠ '<' && c ≠ '>'

/-- `re.findall(r'/glade/[^\s\)\"\'<>]+', text)`: leftmost, non-overlapping
occurrences of the literal `/glade/` followed by a maximal run of path
characters (at least one). -/
def findGladeAux : Nat → List Char → List (List Char)
  | 0, _ => []
  | _, [] => []
  | fuel + 1, c :: t =>
    if "/glade/".toList.isPrefixOf (c :: t) then
      let run := ((c :: t).drop 7).takeWhile isPathChar
      if !run.isEmpty then
        ("/glade/".toList ++ run) :: findGladeAux fuel ((c :: t).drop (7 + run.length))
      else findGladeAux fuel t
    else findGladeAux fuel t

/-- Glade-path matches of a character list. -/
def findGlade (cs : List Char) : List (List Char) :=
  findGladeAux cs.length cs

/-- The trailing-junk class `[.,;:!?)\]` and backtick `]+$` stripped from
extracted paths (backtick written by code point). -/
def pathTrailJunk (c : Char) : Bool :=
  c = '.' || c = ',' || c = ';' || c = ':' || c = '!' || c = '?' ||
    c = ')' || c = ']' || c.toNat = 96

/-- `IssueParser.extract_file_paths` with the set-iteration oracle standing
for `list(set(paths))`. -/
def extractFilePaths (ord : List String → List String) (text : String) :
    List String :=
  if text = "" then []
  else ord ((findGlade text.toList).map (fun p => String.mk (dropTrailing pathTrailJunk p)))

/-- The `@handle` class `[a-zA-Z0-9_-]`. -/
def isHandleChar (c : Char) : Bool :=
  c.isAlpha || c.isDigit || c = '_' || c = '-'

/-- `re.findall(r'@([a-zA-Z0-9_-]+)', text)`. -/
def findMentionsAux : Nat → List Char → List (List Char)
  | 0, _ => []
  | _, [] => []
  | fuel + 1, c :: t =>
    if c = '@' then
      let run := t.takeWhile isHandleChar
      if !run.isEmpty then run :: findMentionsAux fuel (t.drop run.length)
      else findMentionsAux fuel t
    else findMentionsAux fuel t

/-- `IssueParser.extract_contacts`. -/
def extractContacts (ord : List String → List String) (text : String) :
    List String :=
  if text = "" then []
  else ord ((findMentionsAux text.toList.length text.toList).map String.mk)

/-- `re.findall(r'https?://webext\.cgd\.ucar\.edu/[^\s\)\"\'<>]+', text)`. -/
def findUrlsAux : Nat → List Char → List (List Char)
  | 0, _ => []
  | _, [] => []
  | fuel + 1, c :: t =>
    let lit1 := "https://webext.cgd.ucar.edu/".toList
    let lit2 := "http://webext.cgd.ucar.edu/".toList
    if lit1.isPrefixOf (c :: t) then
      let run := ((c :: t).drop lit1.length).takeWhile isPathChar
      if !run.isEmpty then
        (lit1 ++ run) :: findUrlsAux fuel ((c :: t).drop (lit1.length + run.length))
      else findUrlsAux fuel t
    else if lit2.isPrefixOf (c :: t) then
      let run := ((c :: t).drop lit2.length).takeWhile isPathChar
      if !run.isEmpty then
        (lit2 ++ run) :: findUrlsAux fuel ((c :: t).drop (lit2.length + run.length))
      else findUrlsAux fuel t
    else findUrlsAux fuel t

/-- The trailing-junk class `[.,;:!?\)]+$` stripped from extracted URLs. -/
def urlTrailJunk (c : Char) : Bool :=
  c = '.' || c = ',' || c = ';' || c = ':' || c = '!' || c = '?' || c = ')'

/-- `IssueParser.extract_diagnostic_urls`. -/
def extractDiagnosticUrls (ord : List String → List String) (text : String) :
    List String :=
  if text = "" then []
  else ord ((findUrlsAux text.toList.length text.toList).map
    (fun u => String.mk (dropTrailing urlTrailJunk u)))

/-- The lazy-capture stop of the section regex: the number of characters
before the first position satisfying the lookahead
`(?=\n\*\*|\n\n|$)` (where `$` also matches just before a final newline). -/
def sectionStop : List Char → Nat
  | [] => 0
  | c :: t =>
    if "\n**".toList.isPrefixOf (c :: t) || "\n\n".toList.isPrefixOf (c :: t) ||
        (c = '\n' && t.isEmpty) then 0
    else 1 + sectionStop t

/-- One section pattern `\*\*Label:\*\*\s*\n(.*?)(?=\n\*\*|\n\n|$)` with
`re.IGNORECASE | re.DOTALL`: scan for the first position where the header
matches case-insensitively AND the following whitespace run contains a
newline (`\s*\n` consumes through its last newline); capture lazily up to
the lookahead.  `header` is the lowercased literal. -/
def sectionSearchAux (header : List Char) : Nat → List Char → Option (List Char)
  | 0, _ => none
  | _, [] => none
  | fuel + 1, c :: t =>
    if ((c :: t).take header.length).map Char.toLower == header then
      let rest := (c :: t).drop header.length
      let wsRun := rest.takeWhile isPySpace
      match wsRun.reverse.findIdx? (· = '\n') with
      | some rIdx =>
        let rest2 := rest.drop (wsRun.length - rIdx)
        some (rest2.take (sectionStop rest2))
      | none => sectionSearchAux header fuel t
    else sectionSearchAux header fuel t

/-- `IssueParser.extract_section`-style search for one labeled section,
with the `.strip()` applied at the use sites. -/
def sectionSearch (label : String) (body : String) : Option String :=
  (sectionSearchAux (("**" ++ label ++ ":**").toList.map Char.toLower)
      body.toList.length body.toList).map
    (fun content => pyStrip (String.mk content))

/-- The dictionary produced by `IssueParser.parse_issue_body` (`{}` for an
empty body becomes the all-default record). -/
structure Sections where
  purpose : Option String := none
  description : Option String := none
  case_directory : Option String := none
  diagnostics : Option String := none
  output : Option String := none
  paths : List String := []
  diagnostic_paths : List String := []
  output_paths : List String := []
  contacts : List String := []
  diagnostic_urls : List String := []
deriving Repr, DecidableEq

/-- `IssueParser.parse_issue_body`. -/
def parseIssueBody (ord : List String → List String) (body : String) : Sections :=
  if body = "" then {}
  else
    let paths := extractFilePaths ord body
    { purpose := sectionSearch "purpose" body
      description := sectionSearch "description" body
      case_directory := sectionSearch "case directory" body
      diagnostics := sectionSearch "diagnostics" body
      output := sectionSearch "output" body
      paths := paths
      diagnostic_paths := paths.filter (fun p =>
        strContains (pyLower p) "diagnostic" || strContains (pyLower p) "amwg" ||
          strContains (pyLower p) "climo")
      output_paths := paths.filter (fun p =>
        strContains (pyLower p) "archive" || strContains (pyLower p) "output")
      contacts := extractContacts ord body
      diagnostic_urls := extractDiagnosticUrls ord body }

/-- The fallback arm of `IssueParser._extract_case_directory`: the first
path anywhere in the body with `'runs' in path and 'cesm' in path.lower()`. -/
def fallbackCaseDir (sections : Sections) : Option String :=
  sections.paths.find? (fun p =>
    strContains p "runs" && strContains (pyLower p) "cesm")

/-- `IssueParser._extract_case_directory`: prefer a path from the explicit
Case Directory section (`'runs' in path or 'cesm' in path.lower()`, else the
section's first path), falling back to the body-wide search.  An
empty-string section is falsy in Python. -/
def extractCaseDirectory (ord : List String → List String)
    (sections : Sections) : Option String :=
  match sections.case_directory with
  | some cd =>
    if cd ≠ "" then
      match extractFilePaths ord cd with
      | [] => fallbackCaseDir sections
      | h :: t =>
        some ((((h :: t).find? (fun p =>
          strContains p "runs" || strContains (pyLower p) "cesm"))).getD h)
    else fallbackCaseDir sections
  | none => fallbackCaseDir sections

/-- `ParsedIssue` (dataclass in `issue_parser.py`). -/
structure ParsedIssue where
  issue_number : Int
  title : String
  case_name : Option String := none
  purpose : Option String := none
  description : Option String := none
  case_directory : Option String := none
  diagnostics_paths : List String := []
  output_paths : List String := []
  contacts : List String := []
  diagnostic_urls : List String := []
  parsing_warnings : List String := []
deriving Repr, DecidableEq

/-- `IssueParser._extract_case_name_from_title`: both validation outcomes
return the trimmed title (the non-matching branch only logs a warning). -/
def extractCaseNameFromTitle (title : String) : Option String :=
  if title = "" then none
  else
    let metadata := parseCaseName title
    if metadata.compset.isSome || metadata.resolution.isSome then some (pyStrip title)
    else some (pyStrip title)

/-- `IssueParser.parse_full_issue` (`issue_data` destructured into its
number/title/body; Python's `not x` is true for `None` and `""`). -/
def parseFullIssue (ord : List String → List String) (issueNumber : Int)
    (title body : String) : ParsedIssue :=
  let caseName := extractCaseNameFromTitle title
  let sections := parseIssueBody ord body
  let w1 := if caseName = none ∨ caseName = some "" then
      ["Could not extract case name from title"] else []
  let w2 := if sections.purpose = none ∨ sections.purpose = some "" then
      ["No purpose section found"] else []
  { issue_number := issueNumber
    title := title
    case_name := caseName
    purpose := sections.purpose
    description := sections.description
    case_directory := extractCaseDirectory ord sections
    diagnostics_paths := sections.diagnostic_paths
    output_paths := sections.output_paths
    contacts := sections.contacts
    diagnostic_urls := sections.diagnostic_urls
    parsing_warnings := w1 ++ w2 }

/-- A valid model of one process's set-iteration order: some duplicate-free
reordering that preserves membership. -/
def ValidSetOrder (ord : List String → List String) : Prop :=
  ∀ l : List String, (ord l).Nodup ∧ ∀ x, x ∈ ord l ↔ x ∈ l

/-! ### Claim theorems about the issue parser -/

theorem dedup_validSetOrder : ValidSetOrder (fun l : List String => l.dedup) :=
  fun l => ⟨l.nodup_dedup, fun _ => List.mem_dedup⟩

theorem dedupReverse_validSetOrder :
    ValidSetOrder (fun l : List String => l.dedup.reverse) :=
  fun l => ⟨List.nodup_reverse.mpr l.nodup_dedup,
    fun x => by simp [List.mem_reverse, List.mem_dedup]⟩

/-- The body used to exhibit set-iteration-order sensitivity: its Case
Directory section holds two paths that are both diagnostic-looking
(`climo`) and both run-directory-looking (`runs`). -/
def c8Body : String :=
  "**Case Directory:**\n/glade/runs/climo/a /glade/runs/climo/b"

/-- C8 (counterexample): two valid set-iteration orders — both lawful
models of `list(set(...))` in two CPython runs with different hash seeds —
give different `ParsedIssueRecord`s for the same issue number, title and
body: the `diagnostics_paths` lists differ in order and the
`case_directory` choice itself differs. -/
theorem issue_parse_varies_with_set_order :
    ValidSetOrder (fun l : List String => l.dedup) ∧
    ValidSetOrder (fun l : List String => l.dedup.reverse) ∧
    (parseFullIssue (fun l => l.dedup) 1 "t" c8Body).diagnostics_paths ≠
      (parseFullIssue (fun l => l.dedup.reverse) 1 "t" c8Body).diagnostics_paths ∧
    (parseFullIssue (fun l => l.dedup) 1 "t" c8Body).case_directory ≠
      (parseFullIssue (fun l => l.dedup.reverse) 1 "t" c8Body).case_directory ∧
    parseFullIssue (fun l => l.dedup) 1 "t" c8Body ≠
      parseFullIssue (fun l => l.dedup.reverse) 1 "t" c8Body := by
  refine ⟨dedup_validSetOrder, dedupReverse_validSetOrder, ?_, ?_, ?_⟩ <;> decide

theorem validOrd_perm {o1 o2 : List String → List String}
    (h1 : ValidSetOrder o1) (h2 : ValidSetOrder o2) (l : List String) :
    (o1 l).Perm (o2 l) :=
  (List.perm_ext_iff_of_nodup (h1 l).1 (h2 l).1).mpr
    (fun a => ((h1 l).2 a).trans ((h2 l).2 a).symm)

theorem extractFilePaths_perm {o1 o2 : List String → List String}
    (h1 : ValidSetOrder o1) (h2 : ValidSetOrder o2) (text : String) :
    (extractFilePaths o1 text).Perm (extractFilePaths o2 text) := by
  unfold extractFilePaths
  split
  · exact List.Perm.refl _
  · exact validOrd_perm h1 h2 _

theorem extractContacts_perm {o1 o2 : List String → List String}
    (h1 : ValidSetOrder o1) (h2 : ValidSetOrder o2) (text : String) :
    (extractContacts o1 text).Perm (extractContacts o2 text) := by
  unfold extractContacts
  split
  · exact List.Perm.refl _
  · exact validOrd_perm h1 h2 _

theorem extractDiagnosticUrls_perm {o1 o2 : List String → List String}
    (h1 : ValidSetOrder o1) (h2 : ValidSetOrder o2) (text : String) :
    (extractDiagnosticUrls o1 text).Perm (extractDiagnosticUrls o2 text) := by
  unfold extractDiagnosticUrls
  split
  · exact List.Perm.refl _
  · exact validOrd_perm h1 h2 _

theorem parseIssueBody_sections_eq (o1 o2 : List String → List String)
    (body : String) :
    (parseIssueBody o1 body).purpose = (parseIssueBody o2 body).purpose ∧
    (parseIssueBody o1 body).description = (parseIssueBody o2 body).description ∧
    (parseIssueBody o1 body).case_directory = (parseIssueBody o2 body).case_directory := by
  unfold parseIssueBody
  split <;> exact ⟨rfl, rfl, rfl⟩

theorem parseIssueBody_perms {o1 o2 : List String → List String}
    (h1 : ValidSetOrder o1) (h2 : ValidSetOrder o2) (body : String) :
    (parseIssueBody o1 body).paths.Perm (parseIssueBody o2 body).paths ∧
    (parseIssueBody o1 body).diagnostic_paths.Perm
      (parseIssueBody o2 body).diagnostic_paths ∧
    (parseIssueBody o1 body).output_paths.Perm
      (parseIssueBody o2 body).output_paths ∧
    (parseIssueBody o1 body).contacts.Perm (parseIssueBody o2 body).contacts ∧
    (parseIssueBody o1 body).diagnostic_urls.Perm
      (parseIssueBody o2 body).diagnostic_urls := by
  unfold parseIssueBody
  split
  · exact ⟨.refl _, .refl _, .refl _, .refl _, .refl _⟩
  · exact ⟨extractFilePaths_perm h1 h2 body,
      (extractFilePaths_perm h1 h2 body).filter _,
      (extractFilePaths_perm h1 h2 body).filter _,
      extractContacts_perm h1 h2 body,
      extractDiagnosticUrls_perm h1 h2 body⟩

theorem extractCaseDirectory_none_iff {o1 o2 : List String → List String}
    {s1 s2 : Sections}
    (h1 : ValidSetOrder o1) (h2 : ValidSetOrder o2)
    (hcd : s1.case_directory = s2.case_directory)
    (hp : s1.paths.Perm s2.paths) :
    (extractCaseDirectory o1 s1 = none ↔ extractCaseDirectory o2 s2 = none) := by
  have hfb : (fallbackCaseDir s1 = none ↔ fallbackCaseDir s2 = none) := by
    unfold fallbackCaseDir
    simp only [List.find?_eq_none]
    constructor
    · intro h x hx
      exact h x (hp.mem_iff.mpr hx)
    · intro h x hx
      exact h x (hp.mem_iff.mp hx)
  unfold extractCaseDirectory
  rw [hcd]
  cases hval : s2.case_directory with
  | none => exact hfb
  | some cd =>
    dsimp only
    by_cases hne : cd = ""
    · rw [if_neg (by simp [hne]), if_neg (by simp [hne])]
      exact hfb
    · rw [if_pos hne, if_pos hne]
      have hperm := extractFilePaths_perm h1 h2 cd
      cases hpf1 : extractFilePaths o1 cd with
      | nil =>
        cases hpf2 : extractFilePaths o2 cd with
        | nil =>
          dsimp only
          exact hfb
        | cons b bs =>
          rw [hpf1, hpf2] at hperm
          exact absurd hperm.symm (by simp)
      | cons a as =>
        cases hpf2 : extractFilePaths o2 cd with
        | nil =>
          rw [hpf1, hpf2] at hperm
          exact absurd hperm (by simp)
        | cons b bs =>
          dsimp only
          simp

/-- C8 (amended): re-running the parsing stages on identical inputs gives
`ParsedIssueRecord`s that agree on issue number, title, case name, purpose,
description and warnings, and whose path/contact/URL lists are equal as
sets (permutations of each other); the ORDER of those deduplicated lists
and the tie-break choice of `case_directory` may vary with the process's
set-iteration order (only its presence is stable).  `CaseIdentity` outputs,
being pure functions of the name, are identical. -/
theorem issue_parse_deterministic_up_to_set_order
    (o1 o2 : List String → List String)
    (h1 : ValidSetOrder o1) (h2 : ValidSetOrder o2)
    (n : Int) (title body : String) :
    (parseFullIssue o1 n title body).issue_number =
      (parseFullIssue o2 n title body).issue_number ∧
    (parseFullIssue o1 n title body).title =
      (parseFullIssue o2 n title body).title ∧
    (parseFullIssue o1 n title body).case_name =
      (parseFullIssue o2 n title body).case_name ∧
    (parseFullIssue o1 n title body).purpose =
      (parseFullIssue o2 n title body).purpose ∧
    (parseFullIssue o1 n title body).description =
      (parseFullIssue o2 n title body).description ∧
    (parseFullIssue o1 n title body).diagnostics_paths.Perm
      (parseFullIssue o2 n title body).diagnostics_paths ∧
    (parseFullIssue o1 n title body).output_paths.Perm
      (parseFullIssue o2 n title body).output_paths ∧
    (parseFullIssue o1 n title body).contacts.Perm
      (parseFullIssue o2 n title body).contacts ∧
    (parseFullIssue o1 n title body).diagnostic_urls.Perm
      (parseFullIssue o2 n title body).diagnostic_urls ∧
    (parseFullIssue o1 n title body).parsing_warnings =
      (parseFullIssue o2 n title body).parsing_warnings ∧
    ((parseFullIssue o1 n title body).case_directory = none ↔
      (parseFullIssue o2 n title body).case_directory = none) ∧
    parseCaseName title = parseCaseName title := by
  obtain ⟨hpur, hdesc, hcd⟩ := parseIssueBody_sections_eq o1 o2 body
  obtain ⟨hpaths, hdiag, hout, hcont, hurls⟩ := parseIssueBody_perms h1 h2 body
  unfold parseFullIssue
  dsimp only
  refine ⟨rfl, rfl, rfl, hpur, hdesc, hdiag, hout, hcont, hurls, ?_, ?_, rfl⟩
  · rw [hpur]
  · exact extractCaseDirectory_none_iff h1 h2 hcd hpaths

/-- Witness for `issue_parse_deterministic_up_to_set_order` at a concrete
issue and two concrete valid orders. -/
theorem issue_parse_deterministic_witness :
    (parseFullIssue (fun l => l.dedup) 2 "w" c8Body).parsing_warnings =
      (parseFullIssue (fun l => l.dedup.reverse) 2 "w" c8Body).parsing_warnings ∧
    (parseFullIssue (fun l => l.dedup) 2 "w" c8Body).diagnostics_paths.Perm
      (parseFullIssue (fun l => l.dedup.reverse) 2 "w" c8Body).diagnostics_paths :=
  ⟨(issue_parse_deterministic_up_to_set_order _ _ dedup_validSetOrder
      dedupReverse_validSetOrder 2 "w" c8Body).2.2.2.2.2.2.2.2.2.1,
   (issue_parse_deterministic_up_to_set_order _ _ dedup_validSetOrder
      dedupReverse_validSetOrder 2 "w" c8Body).2.2.2.2.2.1⟩

end Statboard
